import Mathlib

/-!
Shallow embedding of the per-channel chat actor of the aniflixx clan chat
system (Cloudflare Durable Object `ChatRoom`), following the canonical
variant in src/durable-objects/ChatRoom.ts.

The actor state (sessions, members, message window, typing state) is a
plain structure; each WebSocket command handler is a pure function from a
state and a command to a new state plus a list of emitted effects
(database statements, storage snapshot writes, unicasts and broadcasts).
Sources of nondeterminism in the code — crypto.randomUUID(), the ISO
timestamp, setTimeout handles, and whether a durable-store statement
throws — are passed in as explicit parameters.
-/

namespace ClanChat

/-- JS falsy-or default: `s || d` for an optional string, where the empty
string is falsy. -/
def orDefault (s : Option String) (d : String) : String :=
  match s with
  | some v => if v = "" then d else v
  | none => d

/-- JS `x || null` for an optional string: empty string collapses to null. -/
def optNonEmpty (s : Option String) : Option String :=
  match s with
  | some v => if v = "" then none else some v
  | none => none

/-- Character-list model of JS `String.prototype.trim`: drop whitespace
from both ends. -/
def trimChars (l : List Char) : List Char :=
  ((l.dropWhile Char.isWhitespace).reverse.dropWhile Char.isWhitespace).reverse

/-- String trim as used by the handlers (`content?.trim()`). -/
def strTrim (s : String) : String :=
  ⟨trimChars s.data⟩

/-- Lexicographic strict order on character lists, modelling the SQL
comparison `timestamp < ?` on TEXT columns. -/
def lexLt : List Char → List Char → Bool
  | _, [] => false
  | [], _ :: _ => true
  | a :: as, b :: bs =>
    if a.toNat < b.toNat then true
    else if b.toNat < a.toNat then false
    else lexLt as bs

/-- Strict lexicographic order on strings. -/
def strLt (a b : String) : Bool :=
  lexLt a.data b.data

/-- Association-list lookup, modelling JS object / Map indexing. -/
def aGet {β : Type} : List (String × β) → String → Option β
  | [], _ => none
  | (k, v) :: t, key => if k = key then some v else aGet t key

/-- Association-list update: replace the first binding of the key in
place, or append a fresh binding at the end — JS object assignment
semantics (existing keys keep their position, new keys go last). -/
def aSet {β : Type} : List (String × β) → String → β → List (String × β)
  | [], key, v => [(key, v)]
  | (k, w) :: t, key, v => if k = key then (key, v) :: t else (k, w) :: aSet t key v

/-- Association-list deletion, modelling JS `delete obj[key]`. -/
def aDelete {β : Type} (l : List (String × β)) (key : String) : List (String × β) :=
  l.filter (fun p => p.1 != key)

/-- Apply a function to the element at one index, leaving the rest of the
list unchanged — in-place mutation of `this.messages[messageIndex]`. -/
def modifyIdx {α : Type} : List α → Nat → (α → α) → List α
  | [], _, _ => []
  | a :: t, 0, f => f a :: t
  | a :: t, n + 1, f => a :: modifyIdx t n f

/-- Insert into a list sorted by the boolean comparator `r` (insertion
position: before the first element `b` with `r a b`). -/
def insertSorted {α : Type} (r : α → α → Bool) (a : α) : List α → List α
  | [] => [a]
  | b :: t => if r a b then a :: b :: t else b :: insertSorted r a t

/-- Insertion sort by the boolean comparator `r`; models the SQL
`ORDER BY` clause. -/
def sortBy {α : Type} (r : α → α → Bool) : List α → List α
  | [] => []
  | a :: t => insertSorted r a (sortBy r t)

/-- User display info attached to a message (`message.user`). -/
structure UserInfo where
  uid : String
  username : String
  profileImage : String
deriving DecidableEq

/-- The `Message` record of src/types.ts.  Reactions are the JS object
`Record<string, string[]>` modelled as an insertion-ordered association
list from reaction key to the list of reacting user ids. -/
structure Message where
  id : String
  channelId : String
  userId : String
  content : String
  timestamp : String
  edited : Bool
  editedAt : Option String
  deleted : Bool
  threadId : Option String
  replyTo : Option String
  attachments : List String
  reactions : List (String × List String)
  user : UserInfo
  mentions : List String
deriving DecidableEq

/-- The `ChannelMember` record of src/types.ts (status kept opaque). -/
structure ChannelMember where
  id : String
  username : String
  avatar : String
  status : String
deriving DecidableEq

/-- One registered WebSocket session; `isOpen` models
`readyState === READY_STATE_OPEN`. -/
structure Sess where
  isOpen : Bool
deriving DecidableEq

/-- The mutable fields of the `ChatRoom` durable object. -/
structure RoomState where
  sessions : List (String × Sess)
  members : List (String × ChannelMember)
  messages : List Message
  typingUsers : List String
  channelId : String
  typingTimeouts : List (String × Nat)
deriving DecidableEq

/-- Inbound command envelope (`WSMessage` of src/types.ts); the `type`
discriminant is handled by the dispatcher, handlers read the fields. -/
structure WSMessage where
  content : Option String
  messageId : Option String
  threadId : Option String
  replyTo : Option String
  attachments : Option (List String)
  reaction : Option String
  mentions : Option (List String)
deriving DecidableEq

/-- Outbound events the modelled handlers can emit. -/
inductive Event where
  | errorEv (msg : String)
  | newMessage (m : Message)
  | messageEdited (m : Message)
  | messageDeleted (messageId : String)
  | typingStartEv (userId : String)
  | typingStopEv (userId : String)
  | reactionAdded (messageId reaction userId : String)
  | reactionRemoved (messageId reaction userId : String)
deriving DecidableEq

/-- A row of the durable `messages` table (migration
001_create_messages_table.sql plus the username/profileImage columns the
insert statement writes). -/
structure DBRow where
  id : String
  channelId : String
  userId : String
  content : String
  timestamp : String
  threadId : Option String
  replyTo : Option String
  username : String
  profileImage : String
  edited : Bool
  deleted : Bool
  editedAt : Option String
deriving DecidableEq

/-- Side effects a handler performs, in program order: durable SQL
statements, the storage snapshot write, unicasts and broadcasts. -/
inductive Eff where
  | dbInsert (row : DBRow)
  | dbUpdateEdit (content editedAt id userId : String)
  | dbUpdateDelete (id userId : String)
  | storagePut (msgs : List Message)
  | sendToUser (userId : String) (ev : Event)
  | broadcastEv (ev : Event) (exclude : Option String)
deriving DecidableEq

/-- Does the effect broadcast an event? -/
def Eff.isBroadcast : Eff → Bool
  | .broadcastEv _ _ => true
  | _ => false

/-- Does the effect write the storage snapshot? -/
def Eff.isStoragePut : Eff → Bool
  | .storagePut _ => true
  | _ => false

/-- Is the effect an error event unicast to the given user? -/
def Eff.isErrorTo (e : Eff) (uid : String) : Bool :=
  match e with
  | .sendToUser u (.errorEv _) => u == uid
  | _ => false

/-- `message.content?.trim()` collapsed with the `!content` falsy check:
a missing content behaves like the empty string. -/
def trimContent (cmd : WSMessage) : String :=
  (cmd.content.map strTrim).getD ""

/-- The in-memory `Message` object built by handleSendMessage. -/
def mkNewMessage (st : RoomState) (cmd : WSMessage) (userId newId ts : String) : Message :=
  let member := aGet st.members userId
  { id := newId
    channelId := st.channelId
    userId := userId
    content := trimContent cmd
    timestamp := ts
    edited := false
    editedAt := none
    deleted := false
    threadId := cmd.threadId
    replyTo := cmd.replyTo
    attachments := cmd.attachments.getD []
    reactions := []
    user := { uid := userId
              username := orDefault (member.map (fun m => m.username)) "User"
              profileImage := orDefault (member.map (fun m => m.avatar)) "" }
    mentions := cmd.mentions.getD [] }

/-- The durable row written by the INSERT statement of handleSendMessage
(`threadId || null`, `replyTo || null`; edited/deleted default to 0). -/
def mkDbRow (st : RoomState) (cmd : WSMessage) (userId newId ts : String) : DBRow :=
  let member := aGet st.members userId
  { id := newId
    channelId := st.channelId
    userId := userId
    content := trimContent cmd
    timestamp := ts
    threadId := optNonEmpty cmd.threadId
    replyTo := optNonEmpty cmd.replyTo
    username := orDefault (member.map (fun m => m.username)) "User"
    profileImage := orDefault (member.map (fun m => m.avatar)) ""
    edited := false
    deleted := false
    editedAt := none }

/-- The window update of handleSendMessage: push, then on overflow of the
soft cap 100 trim back to the most recent 50 (`slice(-50)`). -/
def pushTrim (w : List Message) (m : Message) : List Message :=
  let w' := w ++ [m]
  if w'.length > 100 then w'.drop (w'.length - 50) else w'

/-- handleTypingStop: no-op unless the user is typing; otherwise clear
the typing flag and timer and broadcast typing_stop to the others. -/
def handleTypingStop (st : RoomState) (userId : String) : RoomState × List Eff :=
  if st.typingUsers.contains userId then
    ({ st with
        typingUsers := st.typingUsers.erase userId
        typingTimeouts := aDelete st.typingTimeouts userId },
     [Eff.broadcastEv (Event.typingStopEv userId) (some userId)])
  else (st, [])

/-- handleTypingStart: no-op while already typing; otherwise record the
user as typing, install the expiry timer and broadcast typing_start to
the others.  `timerId` stands for the setTimeout handle. -/
def handleTypingStart (st : RoomState) (userId : String) (timerId : Nat) :
    RoomState × List Eff :=
  if st.typingUsers.contains userId then (st, [])
  else
    ({ st with
        typingUsers := st.typingUsers ++ [userId]
        typingTimeouts := aSet st.typingTimeouts userId timerId },
     [Eff.broadcastEv (Event.typingStartEv userId) (some userId)])

/-- handleSendMessage.  `newId` and `ts` stand for crypto.randomUUID()
and the ISO timestamp; `insertOk` is whether the durable INSERT ran
without throwing (the try/catch outcome). -/
def handleSendMessage (maxLen : Nat) (st : RoomState) (cmd : WSMessage)
    (userId newId ts : String) (insertOk : Bool) : RoomState × List Eff :=
  let content := trimContent cmd
  if content = "" ∨ content.length > maxLen then
    (st, [Eff.sendToUser userId (Event.errorEv "Message content is invalid or too long")])
  else
    let newMessage := mkNewMessage st cmd userId newId ts
    let row := mkDbRow st cmd userId newId ts
    if insertOk then
      let msgs := pushTrim st.messages newMessage
      let st1 := { st with messages := msgs }
      let stopRes := handleTypingStop st1 userId
      (stopRes.1,
       [Eff.dbInsert row, Eff.storagePut msgs,
        Eff.broadcastEv (Event.newMessage newMessage) none] ++ stopRes.2)
    else
      (st, [Eff.dbInsert row, Eff.sendToUser userId (Event.errorEv "Failed to send message")])

/-- handleEditMessage.  `editedAt` stands for the ISO timestamp, `dbOk`
for the try/catch outcome of the durable UPDATE. -/
def handleEditMessage (st : RoomState) (cmd : WSMessage) (userId editedAt : String)
    (dbOk : Bool) : RoomState × List Eff :=
  let newContent := trimContent cmd
  let mid := cmd.messageId.getD ""
  if mid = "" ∨ newContent = "" then
    (st, [Eff.sendToUser userId (Event.errorEv "Invalid edit request")])
  else
    let i := st.messages.findIdx (fun m => m.id == mid)
    match st.messages[i]? with
    | none => (st, [Eff.sendToUser userId (Event.errorEv "Message not found or unauthorized")])
    | some m =>
      if m.userId ≠ userId then
        (st, [Eff.sendToUser userId (Event.errorEv "Message not found or unauthorized")])
      else if dbOk then
        let upd := fun (x : Message) =>
          { x with content := newContent, edited := true, editedAt := some editedAt }
        let msgs := modifyIdx st.messages i upd
        ({ st with messages := msgs },
         [Eff.dbUpdateEdit newContent editedAt mid userId,
          Eff.storagePut msgs,
          Eff.broadcastEv (Event.messageEdited (upd m)) none])
      else
        (st, [Eff.dbUpdateEdit newContent editedAt mid userId,
              Eff.sendToUser userId (Event.errorEv "Failed to edit message")])

/-- handleDeleteMessage: ownership-checked soft delete; the window entry
is spliced out, the durable row only flagged. -/
def handleDeleteMessage (st : RoomState) (cmd : WSMessage) (userId : String)
    (dbOk : Bool) : RoomState × List Eff :=
  let mid := cmd.messageId.getD ""
  if mid = "" then
    (st, [Eff.sendToUser userId (Event.errorEv "Invalid delete request")])
  else
    let i := st.messages.findIdx (fun m => m.id == mid)
    match st.messages[i]? with
    | none => (st, [Eff.sendToUser userId (Event.errorEv "Message not found or unauthorized")])
    | some m =>
      if m.userId ≠ userId then
        (st, [Eff.sendToUser userId (Event.errorEv "Message not found or unauthorized")])
      else if dbOk then
        let msgs := st.messages.eraseIdx i
        ({ st with messages := msgs },
         [Eff.dbUpdateDelete mid userId,
          Eff.storagePut msgs,
          Eff.broadcastEv (Event.messageDeleted mid) none])
      else
        (st, [Eff.dbUpdateDelete mid userId,
              Eff.sendToUser userId (Event.errorEv "Failed to delete message")])

/-- Effect of the soft-delete UPDATE statement
(`UPDATE messages SET deleted = 1 WHERE id = ? AND userId = ?`) on the
durable table. -/
def dbApplyDelete (db : List DBRow) (mid uid : String) : List DBRow :=
  db.map (fun r => if r.id = mid ∧ r.userId = uid then { r with deleted := true } else r)

/-- The reaction-map mutation of handleReactionAdd: create the key on
demand (`if (!msg.reactions[reaction]) msg.reactions[reaction] = []`),
then push the user only when not already included; `none` means the
includes-check failed, so nothing was mutated (and the handler neither
persists nor broadcasts). -/
def reactionsAdd (R : List (String × List String)) (k u : String) :
    Option (List (String × List String)) :=
  match aGet R k with
  | none => some (aSet R k [u])
  | some l => if u ∈ l then none else some (aSet R k (l ++ [u]))

/-- The reaction-map mutation of handleReactionRemove: filter the user
out of the key's list, pruning the key when the list becomes empty;
`none` means the key was absent, so nothing was mutated. -/
def reactionsRemove (R : List (String × List String)) (k u : String) :
    Option (List (String × List String)) :=
  match aGet R k with
  | none => none
  | some l =>
    let l' := l.filter (fun x => x != u)
    some (if l' = [] then aDelete R k else aSet R k l')

/-- handleReactionAdd: find the message in the window (silently ignore an
unknown id), then apply the idempotent reaction-map mutation; persist
and broadcast only when something was mutated. -/
def handleReactionAdd (st : RoomState) (cmd : WSMessage) (userId : String) :
    RoomState × List Eff :=
  let mid := cmd.messageId.getD ""
  let reaction := cmd.reaction.getD ""
  if mid = "" ∨ reaction = "" then (st, [])
  else
    let i := st.messages.findIdx (fun m => m.id == mid)
    match st.messages[i]? with
    | none => (st, [])
    | some m =>
      match reactionsAdd m.reactions reaction userId with
      | none => (st, [])
      | some R1 =>
        let msgs := modifyIdx st.messages i (fun x => { x with reactions := R1 })
        ({ st with messages := msgs },
         [Eff.storagePut msgs,
          Eff.broadcastEv (Event.reactionAdded mid reaction userId) none])

/-- handleReactionRemove: find the message in the window (silently
ignore an unknown id), then apply the pruning removal; persist and
broadcast only when the key existed. -/
def handleReactionRemove (st : RoomState) (cmd : WSMessage) (userId : String) :
    RoomState × List Eff :=
  let mid := cmd.messageId.getD ""
  let reaction := cmd.reaction.getD ""
  if mid = "" ∨ reaction = "" then (st, [])
  else
    let i := st.messages.findIdx (fun m => m.id == mid)
    match st.messages[i]? with
    | none => (st, [])
    | some m =>
      match reactionsRemove m.reactions reaction userId with
      | none => (st, [])
      | some R1 =>
        let msgs := modifyIdx st.messages i (fun x => { x with reactions := R1 })
        ({ st with messages := msgs },
         [Eff.storagePut msgs,
          Eff.broadcastEv (Event.reactionRemoved mid reaction userId) none])

/-- Delivery set of one broadcast call: every registered session except
the excluded user whose socket is open receives the serialized event. -/
def broadcastDeliver (sessions : List (String × Sess)) (ev : Event)
    (exclude : Option String) : List (String × Event) :=
  sessions.filterMap (fun p =>
    let notExcluded := match exclude with
      | some e => p.1 != e
      | none => true
    if notExcluded && p.2.isOpen then some (p.1, ev) else none)

/-- Does a row survive the WHERE clause of the history query
(`channelId = ? AND deleted = 0 [AND timestamp < ?]`)? -/
def rowMatches (cid : String) (before : Option String) (r : DBRow) : Bool :=
  r.channelId == cid && !r.deleted &&
    (match before with
     | some b => strLt r.timestamp b
     | none => true)

/-- Descending-timestamp comparator of `ORDER BY timestamp DESC`. -/
def tsGe (a b : DBRow) : Bool :=
  !(strLt a.timestamp b.timestamp)

/-- Row set of the getMessages query: filter, sort descending, apply the
LIMIT, then reverse into ascending order (the `results.reverse()`). -/
def queryRows (db : List DBRow) (cid : String) (limit : Nat)
    (before : Option String) : List DBRow :=
  ((sortBy tsGe (db.filter (rowMatches cid before))).take limit).reverse

/-- The row-to-Message projection of getMessages (`!!r.edited`,
`r.editedAt ? ... : undefined`, username/profileImage fallbacks through
the member cache). -/
def rowToMessage (members : List (String × ChannelMember)) (r : DBRow) : Message :=
  let member := aGet members r.userId
  let uname := orDefault (some r.username) (orDefault (member.map (fun m => m.username)) "User")
  let img := orDefault (some r.profileImage) (orDefault (member.map (fun m => m.avatar)) "")
  { id := r.id
    channelId := r.channelId
    userId := r.userId
    content := r.content
    timestamp := r.timestamp
    edited := r.edited
    editedAt := optNonEmpty r.editedAt
    deleted := r.deleted
    threadId := optNonEmpty r.threadId
    replyTo := optNonEmpty r.replyTo
    attachments := []
    reactions := []
    user := { uid := r.userId, username := uname, profileImage := img }
    mentions := [] }

/-- The full getMessages response body for a given durable table. -/
def getMessages (db : List DBRow) (members : List (String × ChannelMember))
    (cid : String) (limit : Nat) (before : Option String) : List Message :=
  (queryRows db cid limit before).map (rowToMessage members)

/-! ### Association-list lemmas -/

theorem aGet_aSet {β : Type} (k : String) (v : β) :
    ∀ (R : List (String × β)), aGet (aSet R k v) k = some v
  | [] => by simp [aGet, aSet]
  | (k', w) :: t => by
    by_cases h : k' = k
    · simp [aSet, aGet, h]
    · simp [aSet, aGet, h]
      exact aGet_aSet k v t

theorem aSet_aSet {β : Type} (k : String) (v w : β) :
    ∀ (R : List (String × β)), aSet (aSet R k v) k w = aSet R k w
  | [] => by simp [aSet]
  | (k', u) :: t => by
    by_cases h : k' = k
    · simp [aSet, h]
    · simp [aSet, h]
      exact aSet_aSet k v w t

theorem aSet_self {β : Type} (k : String) (v : β) :
    ∀ (R : List (String × β)), aGet R k = some v → aSet R k v = R
  | [], h => by simp [aGet] at h
  | (k', u) :: t, h => by
    by_cases hk : k' = k
    · simp [aGet, hk] at h
      simp [aSet, hk, h]
    · simp [aGet, hk] at h
      simp [aSet, hk]
      exact aSet_self k v t h

theorem aSet_absent {β : Type} (k : String) (v : β) :
    ∀ (R : List (String × β)), aGet R k = none → aSet R k v = R ++ [(k, v)]
  | [], _ => rfl
  | (k', u) :: t, h => by
    by_cases hk : k' = k
    · simp [aGet, hk] at h
    · simp [aGet, hk] at h
      simp [aSet, hk]
      exact aSet_absent k v t h

theorem aDelete_absent {β : Type} (k : String) :
    ∀ (R : List (String × β)), aGet R k = none → aDelete R k = R
  | [], _ => rfl
  | (k', u) :: t, h => by
    by_cases hk : k' = k
    · simp [aGet, hk] at h
    · simp [aGet, hk] at h
      simpa [aDelete, List.filter_cons, hk] using aDelete_absent k t h

theorem aDelete_append_single {β : Type} (k : String) (v : β) (R : List (String × β)) :
    aDelete (R ++ [(k, v)]) k = aDelete R k := by
  simp [aDelete, List.filter_append]

/-! ### modifyIdx lemmas -/

theorem modifyIdx_findIdx {α : Type} (p : α → Bool) (g : α → α) (hpg : ∀ x, p (g x) = p x) :
    ∀ (l : List α) (i : Nat), (modifyIdx l i g).findIdx p = l.findIdx p
  | [], _ => rfl
  | a :: t, 0 => by simp [modifyIdx, List.findIdx_cons, hpg]
  | a :: t, i + 1 => by
    simp only [modifyIdx, List.findIdx_cons]
    cases hpa : p a <;> simp [modifyIdx_findIdx p g hpg t i]

theorem getElem?_modifyIdx {α : Type} (g : α → α) :
    ∀ (l : List α) (i : Nat), (modifyIdx l i g)[i]? = (l[i]?).map g
  | [], i => by simp [modifyIdx]
  | a :: t, 0 => by simp [modifyIdx]
  | a :: t, i + 1 => by
    simp only [modifyIdx, List.getElem?_cons_succ]
    exact getElem?_modifyIdx g t i

theorem modifyIdx_modifyIdx {α : Type} (f g : α → α) :
    ∀ (l : List α) (i : Nat), modifyIdx (modifyIdx l i f) i g = modifyIdx l i (fun x => g (f x))
  | [], _ => rfl
  | a :: t, 0 => rfl
  | a :: t, i + 1 => by
    simp only [modifyIdx, List.cons.injEq, true_and]
    exact modifyIdx_modifyIdx f g t i

theorem modifyIdx_eq_self {α : Type} (g : α → α) :
    ∀ (l : List α) (i : Nat) (a : α), l[i]? = some a → g a = a → modifyIdx l i g = l
  | [], i, a, h, _ => by simp at h
  | b :: t, 0, a, h, hg => by
    simp at h
    subst h
    simp [modifyIdx, hg]
  | b :: t, i + 1, a, h, hg => by
    simp at h
    simp only [modifyIdx, List.cons.injEq, true_and]
    exact modifyIdx_eq_self g t i a h hg

/-! ### findIdx / eraseIdx lemmas -/

theorem getElem?_findIdx_pred {α : Type} (p : α → Bool) :
    ∀ (l : List α) (a : α), l[l.findIdx p]? = some a → p a = true
  | [], a, h => by simp at h
  | b :: t, a, h => by
    rw [List.findIdx_cons] at h
    cases hb : p b
    · rw [hb] at h
      simp only [cond_false, List.getElem?_cons_succ] at h
      exact getElem?_findIdx_pred p t a h
    · rw [hb] at h
      simp only [cond_true, List.getElem?_cons_zero, Option.some.injEq] at h
      subst h
      exact hb

theorem eraseIdx_map_ne {α β : Type} (f : α → β) :
    ∀ (l : List α) (i : Nat) (a : α), (l.map f).Nodup → l[i]? = some a →
      ∀ x ∈ l.eraseIdx i, f x ≠ f a
  | [], i, a, _, h => by simp at h
  | b :: t, 0, a, hnd, h => by
    simp only [List.getElem?_cons_zero, Option.some.injEq] at h
    subst h
    intro x hx
    rw [List.eraseIdx_cons_zero] at hx
    have h1 : f b ∉ t.map f := (List.nodup_cons.mp (by simpa using hnd)).1
    intro hc
    exact h1 (hc ▸ List.mem_map_of_mem f hx)
  | b :: t, i + 1, a, hnd, h => by
    simp only [List.getElem?_cons_succ] at h
    intro x hx
    rw [List.eraseIdx_cons_succ] at hx
    rcases List.mem_cons.mp hx with rfl | hx2
    · have hamem : a ∈ t := List.getElem?_mem h
      have h1 : f x ∉ t.map f := (List.nodup_cons.mp (by simpa using hnd)).1
      intro hc
      exact h1 (hc ▸ List.mem_map_of_mem f hamem)
    · exact eraseIdx_map_ne f t i a (List.nodup_cons.mp (by simpa using hnd)).2 h x hx2

/-! ### pushTrim iteration lemmas -/

theorem foldl_pushTrim_small :
    ∀ (l acc : List Message), (acc ++ l).length ≤ 100 → List.foldl pushTrim acc l = acc ++ l
  | [], acc, _ => by simp
  | m :: t, acc, h => by
    simp only [List.length_append, List.length_cons] at h
    have hstep : pushTrim acc m = acc ++ [m] := by
      have : ¬((acc ++ [m]).length > 100) := by
        simp only [List.length_append, List.length_cons, List.length_nil]
        omega
      simp only [pushTrim, if_neg this]
    rw [List.foldl_cons, hstep, foldl_pushTrim_small t (acc ++ [m]) (by simp; omega)]
    simp

theorem foldl_pushTrim_101 (l : List Message) (hlen : l.length = 101) :
    List.foldl pushTrim [] l = l.drop 51 := by
  obtain ⟨a, ha⟩ : ∃ a, l.drop 100 = [a] := by
    have h1 : (l.drop 100).length = 1 := by rw [List.length_drop]; omega
    cases hd : l.drop 100 with
    | nil => rw [hd] at h1; simp at h1
    | cons a t =>
      cases t with
      | nil => exact ⟨a, rfl⟩
      | cons b t2 => rw [hd] at h1; simp at h1
  have htake : (l.take 100).length = 100 := by rw [List.length_take]; omega
  have hsplit : l.take 100 ++ [a] = l := by
    conv_rhs => rw [← List.take_append_drop 100 l]
    rw [ha]
  calc List.foldl pushTrim [] l
      = List.foldl pushTrim [] (l.take 100 ++ [a]) := by rw [hsplit]
    _ = List.foldl pushTrim (List.foldl pushTrim [] (l.take 100)) [a] := List.foldl_append _ _ _ _
    _ = List.foldl pushTrim (l.take 100) [a] := by
        rw [foldl_pushTrim_small (l.take 100) [] (by simp [htake])]
        simp
    _ = pushTrim (l.take 100) a := rfl
    _ = l.drop 51 := by
        simp only [pushTrim, hsplit]
        rw [if_pos (by omega), hlen]

/-! ### Lexicographic order lemmas -/

theorem lexLt_asymm : ∀ (a b : List Char), lexLt a b = true → lexLt b a = false
  | _, [], h => by simp [lexLt] at h
  | [], _ :: _, _ => by simp [lexLt]
  | a :: as, b :: bs, h => by
    simp only [lexLt] at h ⊢
    rcases Nat.lt_trichotomy a.toNat b.toNat with h1 | h1 | h1
    · rw [if_neg (by omega), if_pos h1]
    · rw [if_neg (by omega), if_neg (by omega)] at h ⊢
      exact lexLt_asymm as bs h
    · rw [if_neg (by omega), if_pos h1] at h
      exact absurd h (by simp)

theorem lexLt_ge_trans :
    ∀ (a b c : List Char), lexLt a b = false → lexLt b c = false → lexLt a c = false
  | _, _, [], _, _ => by simp [lexLt]
  | _, [], _ :: _, _, hbc => by simp [lexLt] at hbc
  | [], _ :: _, _ :: _, hab, _ => by simp [lexLt] at hab
  | a :: as, b :: bs, c :: cs, hab, hbc => by
    simp only [lexLt] at hab hbc ⊢
    rcases Nat.lt_trichotomy a.toNat b.toNat with h1 | h1 | h1
    · rw [if_pos h1] at hab
      exact absurd hab (by simp)
    · rcases Nat.lt_trichotomy b.toNat c.toNat with h2 | h2 | h2
      · rw [if_pos h2] at hbc
        exact absurd hbc (by simp)
      · rw [if_neg (by omega), if_neg (by omega)] at hab hbc
        rw [if_neg (by omega), if_neg (by omega)]
        exact lexLt_ge_trans as bs cs hab hbc
      · rw [if_neg (by omega), if_pos (by omega)]
    · rcases Nat.lt_trichotomy b.toNat c.toNat with h2 | h2 | h2
      · rw [if_pos h2] at hbc
        exact absurd hbc (by simp)
      · rw [if_neg (by omega), if_pos (by omega)]
      · rw [if_neg (by omega), if_pos (by omega)]

theorem tsGe_total (a b : DBRow) : (tsGe a b || tsGe b a) = true := by
  simp only [tsGe, strLt]
  cases h : lexLt a.timestamp.data b.timestamp.data
  · simp
  · simp [lexLt_asymm _ _ h]

theorem tsGe_trans (a b c : DBRow) (h1 : tsGe a b = true) (h2 : tsGe b c = true) :
    tsGe a c = true := by
  simp only [tsGe, strLt, Bool.not_eq_eq_eq_not, Bool.not_true] at h1 h2 ⊢
  exact lexLt_ge_trans _ _ _ h1 h2

/-! ### Insertion-sort lemmas -/

theorem mem_insertSorted {α : Type} (r : α → α → Bool) (a x : α) :
    ∀ (l : List α), x ∈ insertSorted r a l → x = a ∨ x ∈ l
  | [], h => by
    simp only [insertSorted, List.mem_singleton] at h
    exact Or.inl h
  | b :: t, h => by
    simp only [insertSorted] at h
    by_cases hab : r a b = true
    · rw [if_pos hab] at h
      rcases List.mem_cons.mp h with rfl | h2
      · exact Or.inl rfl
      · exact Or.inr h2
    · rw [if_neg hab] at h
      rcases List.mem_cons.mp h with rfl | h2
      · exact Or.inr (List.mem_cons_self _ _)
      · rcases mem_insertSorted r a x t h2 with rfl | h3
        · exact Or.inl rfl
        · exact Or.inr (List.mem_cons_of_mem _ h3)

theorem mem_sortBy {α : Type} (r : α → α → Bool) (x : α) :
    ∀ (l : List α), x ∈ sortBy r l → x ∈ l
  | [], h => by simp [sortBy] at h
  | a :: t, h => by
    simp only [sortBy] at h
    rcases mem_insertSorted r a x (sortBy r t) h with rfl | h2
    · exact List.mem_cons_self _ _
    · exact List.mem_cons_of_mem _ (mem_sortBy r x t h2)

theorem pairwise_insertSorted {α : Type} (r : α → α → Bool)
    (htotal : ∀ x y, (r x y || r y x) = true)
    (htrans : ∀ x y z, r x y = true → r y z = true → r x z = true) (a : α) :
    ∀ (l : List α), l.Pairwise (fun x y => r x y = true) →
      (insertSorted r a l).Pairwise (fun x y => r x y = true)
  | [], _ => by simp [insertSorted]
  | b :: t, hp => by
    rcases List.pairwise_cons.mp hp with ⟨hbt, hpt⟩
    simp only [insertSorted]
    by_cases hab : r a b = true
    · rw [if_pos hab]
      refine List.pairwise_cons.mpr ⟨?_, hp⟩
      intro x hx
      rcases List.mem_cons.mp hx with rfl | hx2
      · exact hab
      · exact htrans a b x hab (hbt x hx2)
    · rw [if_neg hab]
      refine List.pairwise_cons.mpr ⟨?_, pairwise_insertSorted r htotal htrans a t hpt⟩
      intro x hx
      have hba : r b a = true := by
        have := htotal a b
        cases h1 : r a b
        · rw [h1] at this; simpa using this
        · exact absurd h1 hab
      rcases mem_insertSorted r a x t hx with rfl | hx2
      · exact hba
      · exact hbt x hx2

theorem pairwise_sortBy {α : Type} (r : α → α → Bool)
    (htotal : ∀ x y, (r x y || r y x) = true)
    (htrans : ∀ x y z, r x y = true → r y z = true → r x z = true) :
    ∀ (l : List α), (sortBy r l).Pairwise (fun x y => r x y = true)
  | [] => by simp [sortBy]
  | a :: t => by
    simp only [sortBy]
    exact pairwise_insertSorted r htotal htrans a (sortBy r t) (pairwise_sortBy r htotal htrans t)

/-! ### Small handler facts -/

theorem handleTypingStop_messages (st : RoomState) (uid : String) :
    (handleTypingStop st uid).1.messages = st.messages := by
  unfold handleTypingStop
  split <;> rfl

/-- handleReactionAdd when the message is found but the mutation is a
no-op: the state is untouched and no effect is emitted. -/
theorem handleReactionAdd_found_none (st : RoomState) (cmd : WSMessage)
    (uid mid reaction : String) (m : Message)
    (hmid : cmd.messageId = some mid) (hre : cmd.reaction = some reaction)
    (hmidne : mid ≠ "") (hrene : reaction ≠ "")
    (hfind : st.messages[st.messages.findIdx (fun x => x.id == mid)]? = some m)
    (hR : reactionsAdd m.reactions reaction uid = none) :
    handleReactionAdd st cmd uid = (st, []) := by
  unfold handleReactionAdd
  simp only [hmid, hre, Option.getD_some]
  rw [if_neg (by push_neg; exact ⟨hmidne, hrene⟩)]
  split
  · rfl
  · rename_i m' heq
    rw [hfind] at heq
    injection heq with h
    subst h
    rw [hR]

/-- handleReactionAdd when the message is found and the mutation
produces a new reaction map: the message is updated in place and the
snapshot write plus reaction_added broadcast are emitted. -/
theorem handleReactionAdd_found_some (st : RoomState) (cmd : WSMessage)
    (uid mid reaction : String) (m : Message) (R1 : List (String × List String))
    (hmid : cmd.messageId = some mid) (hre : cmd.reaction = some reaction)
    (hmidne : mid ≠ "") (hrene : reaction ≠ "")
    (hfind : st.messages[st.messages.findIdx (fun x => x.id == mid)]? = some m)
    (hR : reactionsAdd m.reactions reaction uid = some R1) :
    handleReactionAdd st cmd uid =
      ({ st with messages := modifyIdx st.messages (st.messages.findIdx (fun x => x.id == mid)) (fun x => { x with reactions := R1 }) },
       [Eff.storagePut (modifyIdx st.messages (st.messages.findIdx (fun x => x.id == mid)) (fun x => { x with reactions := R1 })),
        Eff.broadcastEv (Event.reactionAdded mid reaction uid) none]) := by
  unfold handleReactionAdd
  simp only [hmid, hre, Option.getD_some]
  rw [if_neg (by push_neg; exact ⟨hmidne, hrene⟩)]
  split
  · rename_i heq
    rw [hfind] at heq
    exact Option.noConfusion heq
  · rename_i m' heq
    rw [hfind] at heq
    injection heq with h
    subst h
    rw [hR]

/-- handleReactionRemove when the message is found but the key is
absent: the state is untouched and no effect is emitted. -/
theorem handleReactionRemove_found_none (st : RoomState) (cmd : WSMessage)
    (uid mid reaction : String) (m : Message)
    (hmid : cmd.messageId = some mid) (hre : cmd.reaction = some reaction)
    (hmidne : mid ≠ "") (hrene : reaction ≠ "")
    (hfind : st.messages[st.messages.findIdx (fun x => x.id == mid)]? = some m)
    (hR : reactionsRemove m.reactions reaction uid = none) :
    handleReactionRemove st cmd uid = (st, []) := by
  unfold handleReactionRemove
  simp only [hmid, hre, Option.getD_some]
  rw [if_neg (by push_neg; exact ⟨hmidne, hrene⟩)]
  split
  · rfl
  · rename_i m' heq
    rw [hfind] at heq
    injection heq with h
    subst h
    rw [hR]

/-- handleReactionRemove when the message is found and the key exists:
the message is updated in place and the snapshot write plus
reaction_removed broadcast are emitted. -/
theorem handleReactionRemove_found_some (st : RoomState) (cmd : WSMessage)
    (uid mid reaction : String) (m : Message) (R1 : List (String × List String))
    (hmid : cmd.messageId = some mid) (hre : cmd.reaction = some reaction)
    (hmidne : mid ≠ "") (hrene : reaction ≠ "")
    (hfind : st.messages[st.messages.findIdx (fun x => x.id == mid)]? = some m)
    (hR : reactionsRemove m.reactions reaction uid = some R1) :
    handleReactionRemove st cmd uid =
      ({ st with messages := modifyIdx st.messages (st.messages.findIdx (fun x => x.id == mid)) (fun x => { x with reactions := R1 }) },
       [Eff.storagePut (modifyIdx st.messages (st.messages.findIdx (fun x => x.id == mid)) (fun x => { x with reactions := R1 })),
        Eff.broadcastEv (Event.reactionRemoved mid reaction uid) none]) := by
  unfold handleReactionRemove
  simp only [hmid, hre, Option.getD_some]
  rw [if_neg (by push_neg; exact ⟨hmidne, hrene⟩)]
  split
  · rename_i heq
    rw [hfind] at heq
    exact Option.noConfusion heq
  · rename_i m' heq
    rw [hfind] at heq
    injection heq with h
    subst h
    rw [hR]

/-- Round trip at the reaction-map level: when the user has not already
reacted with the key (and the key, if present, has a non-empty user
list, as in every reachable map), the add mutates and the following
remove restores the original map — pruning the key entirely when its
list becomes empty. -/
theorem reactionsAdd_roundtrip (R : List (String × List String)) (k u : String)
    (hnotin : ∀ l, aGet R k = some l → u ∉ l ∧ l ≠ []) :
    ∃ R1, reactionsAdd R k u = some R1 ∧ reactionsRemove R1 k u = some R := by
  cases haGet : aGet R k with
  | none =>
    refine ⟨aSet R k [u], ?_, ?_⟩
    · unfold reactionsAdd
      rw [haGet]
    · unfold reactionsRemove
      rw [aGet_aSet]
      have h2 : aDelete (aSet R k [u]) k = R := by
        rw [aSet_absent k [u] R haGet, aDelete_append_single, aDelete_absent k R haGet]
      simp [h2]
  | some l =>
    obtain ⟨hu, hl⟩ := hnotin l haGet
    refine ⟨aSet R k (l ++ [u]), ?_, ?_⟩
    · unfold reactionsAdd
      rw [haGet]
      show (if u ∈ l then none else some (aSet R k (l ++ [u]))) = some (aSet R k (l ++ [u]))
      rw [if_neg hu]
    · unfold reactionsRemove
      rw [aGet_aSet]
      have hfil : (l ++ [u]).filter (fun x => x != u) = l := by
        rw [List.filter_append]
        have h1 : l.filter (fun x => x != u) = l :=
          List.filter_eq_self.mpr (fun a ha => bne_iff_ne.mpr (fun h => hu (h ▸ ha)))
        rw [h1]
        simp
      show some (if (l ++ [u]).filter (fun x => x != u) = [] then aDelete (aSet R k (l ++ [u])) k else aSet (aSet R k (l ++ [u])) k ((l ++ [u]).filter (fun x => x != u))) = some R
      rw [hfil, if_neg hl, aSet_aSet, aSet_self k l R haGet]

/-- After a mutating add, a second add for the same key and user is a
no-op (the includes-check fires). -/
theorem reactionsAdd_again (R : List (String × List String)) (k u : String)
    (R1 : List (String × List String)) (h : reactionsAdd R k u = some R1) :
    reactionsAdd R1 k u = none := by
  unfold reactionsAdd at h ⊢
  cases haGet : aGet R k with
  | none =>
    rw [haGet] at h
    injection h with h1
    subst h1
    rw [aGet_aSet]
    show (if u ∈ [u] then none else some (aSet (aSet R k [u]) k ([u] ++ [u]))) = none
    rw [if_pos (by simp)]
  | some l =>
    rw [haGet] at h
    have h2 : (if u ∈ l then none else some (aSet R k (l ++ [u]))) = some R1 := h
    by_cases hu : u ∈ l
    · rw [if_pos hu] at h2
      exact Option.noConfusion h2
    · rw [if_neg hu] at h2
      injection h2 with h1
      subst h1
      rw [aGet_aSet]
      show (if u ∈ l ++ [u] then none else some (aSet (aSet R k (l ++ [u])) k ((l ++ [u]) ++ [u]))) = none
      rw [if_pos (by simp)]

/-- After an add (mutating or not), the key's user list contains the
user exactly once, provided it contained it at most once before. -/
theorem reactionsAdd_count (R : List (String × List String)) (k u : String)
    (hcount : ((aGet R k).getD []).count u ≤ 1) :
    (∀ R1, reactionsAdd R k u = some R1 →
      ∃ l1, aGet R1 k = some l1 ∧ l1.count u = 1) ∧
    (reactionsAdd R k u = none → ∃ l1, aGet R k = some l1 ∧ l1.count u = 1) := by
  cases haGet : aGet R k with
  | none =>
    constructor
    · intro R1 h
      unfold reactionsAdd at h
      rw [haGet] at h
      injection h with h1
      subst h1
      exact ⟨[u], aGet_aSet k [u] R, by simp⟩
    · intro h
      unfold reactionsAdd at h
      rw [haGet] at h
      exact Option.noConfusion h
  | some l =>
    rw [haGet] at hcount
    simp only [Option.getD_some] at hcount
    constructor
    · intro R1 h
      unfold reactionsAdd at h
      rw [haGet] at h
      have h2 : (if u ∈ l then none else some (aSet R k (l ++ [u]))) = some R1 := h
      by_cases hu : u ∈ l
      · rw [if_pos hu] at h2
        exact Option.noConfusion h2
      · rw [if_neg hu] at h2
        injection h2 with h1
        subst h1
        refine ⟨l ++ [u], aGet_aSet k (l ++ [u]) R, ?_⟩
        rw [List.count_append, List.count_eq_zero.mpr hu]
        simp
    · intro h
      unfold reactionsAdd at h
      rw [haGet] at h
      have h2 : (if u ∈ l then none else some (aSet R k (l ++ [u]))) = none := h
      by_cases hu : u ∈ l
      · refine ⟨l, rfl, ?_⟩
        have hpos := List.count_pos_iff.mpr hu
        omega
      · rw [if_neg hu] at h2
        exact Option.noConfusion h2

/-! ### Concrete fixtures used by the witness theorems -/

/-- A message authored by u1, already carrying a like reaction by u1. -/
def mFix : Message :=
  { id := "m1", channelId := "c1", userId := "u1", content := "hi", timestamp := "t1",
    edited := false, editedAt := none, deleted := false, threadId := none, replyTo := none,
    attachments := [], reactions := [("like", ["u1"])],
    user := { uid := "u1", username := "Alice", profileImage := "" }, mentions := [] }

/-- A message authored by u1 with no reactions yet. -/
def mFix2 : Message :=
  { id := "m2", channelId := "c1", userId := "u1", content := "yo", timestamp := "t2",
    edited := false, editedAt := none, deleted := false, threadId := none, replyTo := none,
    attachments := [], reactions := [],
    user := { uid := "u1", username := "Alice", profileImage := "" }, mentions := [] }

/-- A room with two open sessions, two messages and u1 currently typing. -/
def stFix : RoomState :=
  { sessions := [("u1", { isOpen := true }), ("u2", { isOpen := true })],
    members := [("u1", { id := "u1", username := "Alice", avatar := "", status := "online" })],
    messages := [mFix, mFix2], typingUsers := ["u1"], channelId := "c1",
    typingTimeouts := [("u1", 7)] }

/-- A well-formed send_message command. -/
def cmdSendFix : WSMessage :=
  { content := some " hello there ", messageId := none, threadId := none, replyTo := none,
    attachments := none, reaction := none, mentions := none }

/-- An edit/delete command addressing message m1. -/
def cmdEditFix : WSMessage :=
  { content := some "patched", messageId := some "m1", threadId := none, replyTo := none,
    attachments := none, reaction := none, mentions := none }

/-- An edit/delete/reaction command addressing an id absent from the window. -/
def cmdGhostFix : WSMessage :=
  { content := some "patched", messageId := some "zzz", threadId := none, replyTo := none,
    attachments := none, reaction := some "like", mentions := none }

/-- A reaction command addressing message m1 with key like. -/
def cmdReactFix : WSMessage :=
  { content := none, messageId := some "m1", threadId := none, replyTo := none,
    attachments := none, reaction := some "like", mentions := none }

/-- A reaction command addressing message m2 with key heart. -/
def cmdReactFix2 : WSMessage :=
  { content := none, messageId := some "m2", threadId := none, replyTo := none,
    attachments := none, reaction := some "heart", mentions := none }

/-- A small durable table on two channels with one deleted row. -/
def dbFix : List DBRow :=
  [{ id := "r1", channelId := "c1", userId := "u1", content := "a", timestamp := "2024-01-01",
     threadId := none, replyTo := none, username := "Alice", profileImage := "",
     edited := false, deleted := false, editedAt := none },
   { id := "r2", channelId := "c1", userId := "u1", content := "b", timestamp := "2024-01-03",
     threadId := none, replyTo := none, username := "Alice", profileImage := "",
     edited := false, deleted := true, editedAt := none },
   { id := "r3", channelId := "c2", userId := "u2", content := "c", timestamp := "2024-01-02",
     threadId := none, replyTo := none, username := "Bob", profileImage := "",
     edited := false, deleted := false, editedAt := none },
   { id := "r4", channelId := "c1", userId := "u1", content := "d", timestamp := "2024-01-04",
     threadId := none, replyTo := none, username := "Alice", profileImage := "",
     edited := false, deleted := false, editedAt := none }]

/-! ### Claim theorems -/

/-- C1: for a send_message with valid content (non-empty after trimming
and within the length limit) whose durable INSERT fails, the command is
aborted before any in-memory mutation: the state (window included) is
unchanged, no snapshot write and no broadcast are emitted, and exactly
one error event goes to the sender. -/
theorem sendMessage_persistFailure_aborts (maxLen : Nat) (st : RoomState) (cmd : WSMessage)
    (uid nid ts : String)
    (hne : trimContent cmd ≠ "") (hlen : (trimContent cmd).length ≤ maxLen) :
    (handleSendMessage maxLen st cmd uid nid ts false).1 = st ∧
    (handleSendMessage maxLen st cmd uid nid ts false).2 =
      [Eff.dbInsert (mkDbRow st cmd uid nid ts),
       Eff.sendToUser uid (Event.errorEv "Failed to send message")] ∧
    (∀ e ∈ (handleSendMessage maxLen st cmd uid nid ts false).2,
      e.isBroadcast = false ∧ e.isStoragePut = false) ∧
    ((handleSendMessage maxLen st cmd uid nid ts false).2.filter
      (fun e => e.isErrorTo uid)).length = 1 := by
  have hval : ¬(trimContent cmd = "" ∨ (trimContent cmd).length > maxLen) := by
    push_neg
    exact ⟨hne, hlen⟩
  have hres : handleSendMessage maxLen st cmd uid nid ts false =
      (st, [Eff.dbInsert (mkDbRow st cmd uid nid ts),
            Eff.sendToUser uid (Event.errorEv "Failed to send message")]) := by
    unfold handleSendMessage
    rw [if_neg hval]
    rfl
  refine ⟨by rw [hres], by rw [hres], ?_, ?_⟩
  · rw [hres]
    intro e he
    rcases List.mem_cons.mp he with rfl | he2
    · exact ⟨rfl, rfl⟩
    rcases List.mem_cons.mp he2 with rfl | he3
    · exact ⟨rfl, rfl⟩
    · simp at he3
  · rw [hres]
    simp [Eff.isErrorTo]

/-- C1 witness: the abort theorem applied to a concrete failed send. -/
theorem sendMessage_persistFailure_aborts_witness :
    (handleSendMessage 2000 stFix cmdSendFix "u1" "m9" "t9" false).1 = stFix ∧
    (handleSendMessage 2000 stFix cmdSendFix "u1" "m9" "t9" false).2 =
      [Eff.dbInsert (mkDbRow stFix cmdSendFix "u1" "m9" "t9"),
       Eff.sendToUser "u1" (Event.errorEv "Failed to send message")] ∧
    (∀ e ∈ (handleSendMessage 2000 stFix cmdSendFix "u1" "m9" "t9" false).2,
      e.isBroadcast = false ∧ e.isStoragePut = false) ∧
    ((handleSendMessage 2000 stFix cmdSendFix "u1" "m9" "t9" false).2.filter
      (fun e => e.isErrorTo "u1")).length = 1 :=
  sendMessage_persistFailure_aborts 2000 stFix cmdSendFix "u1" "m9" "t9"
    (by decide) (by decide)

/-- C9: typing_start from a user already in the Typing state is a
complete no-op: the state (typing set and timer map included) is
untouched and nothing is broadcast. -/
theorem typingStart_alreadyTyping_noop (st : RoomState) (uid : String) (timerId : Nat)
    (h : st.typingUsers.contains uid = true) :
    handleTypingStart st uid timerId = (st, []) := by
  unfold handleTypingStart
  rw [if_pos h]

/-- C9 witness: a typing_start by the already-typing u1 changes nothing. -/
theorem typingStart_alreadyTyping_noop_witness :
    handleTypingStart stFix "u1" 42 = (stFix, []) :=
  typingStart_alreadyTyping_noop stFix "u1" 42 (by decide)

/-- C2: a successful send updates the window by pushTrim: when the push
makes the window exceed the soft cap 100 it is trimmed back to exactly
the most recent 50 messages, otherwise it is just the appended window;
starting from a window of at most 100 the appended window never exceeds
101 and the resulting window never exceeds 100; and folding pushTrim
over 101 sequential sends from an empty window leaves exactly the most
recent 50 messages. -/
theorem sendMessage_windowTrim (maxLen : Nat) (st : RoomState) (cmd : WSMessage)
    (uid nid ts : String)
    (hne : trimContent cmd ≠ "") (hlen : (trimContent cmd).length ≤ maxLen)
    (hcap : st.messages.length ≤ 100) :
    (handleSendMessage maxLen st cmd uid nid ts true).1.messages =
      pushTrim st.messages (mkNewMessage st cmd uid nid ts) ∧
    ((st.messages ++ [mkNewMessage st cmd uid nid ts]).length > 100 →
      pushTrim st.messages (mkNewMessage st cmd uid nid ts) =
        (st.messages ++ [mkNewMessage st cmd uid nid ts]).drop
          ((st.messages ++ [mkNewMessage st cmd uid nid ts]).length - 50) ∧
      (pushTrim st.messages (mkNewMessage st cmd uid nid ts)).length = 50) ∧
    ((st.messages ++ [mkNewMessage st cmd uid nid ts]).length ≤ 100 →
      pushTrim st.messages (mkNewMessage st cmd uid nid ts) =
        st.messages ++ [mkNewMessage st cmd uid nid ts]) ∧
    (st.messages ++ [mkNewMessage st cmd uid nid ts]).length ≤ 101 ∧
    (handleSendMessage maxLen st cmd uid nid ts true).1.messages.length ≤ 100 ∧
    (∀ l : List Message, l.length = 101 →
      List.foldl pushTrim [] l = l.drop 51 ∧ (l.drop 51).length = 50) := by
  have hval : ¬(trimContent cmd = "" ∨ (trimContent cmd).length > maxLen) := by
    push_neg
    exact ⟨hne, hlen⟩
  have hmsgs : (handleSendMessage maxLen st cmd uid nid ts true).1.messages =
      pushTrim st.messages (mkNewMessage st cmd uid nid ts) := by
    unfold handleSendMessage
    rw [if_neg hval]
    exact handleTypingStop_messages _ uid
  have happ : (st.messages ++ [mkNewMessage st cmd uid nid ts]).length ≤ 101 := by
    simp only [List.length_append, List.length_cons, List.length_nil]
    omega
  refine ⟨hmsgs, ?_, ?_, happ, ?_, ?_⟩
  · intro hover
    constructor
    · simp only [pushTrim, if_pos hover]
    · simp only [pushTrim, if_pos hover, List.length_drop]
      omega
  · intro hle
    have : ¬((st.messages ++ [mkNewMessage st cmd uid nid ts]).length > 100) := by omega
    simp only [pushTrim, if_neg this]
  · rw [hmsgs]
    by_cases hover : (st.messages ++ [mkNewMessage st cmd uid nid ts]).length > 100
    · simp only [pushTrim, if_pos hover, List.length_drop]
      omega
    · simp only [pushTrim, if_neg hover]
      omega
  · intro l hl
    exact ⟨foldl_pushTrim_101 l hl, by rw [List.length_drop]; omega⟩

/-- C2 witness: the trim theorem applied to a concrete send into a
two-message window. -/
theorem sendMessage_windowTrim_witness :
    (handleSendMessage 2000 stFix cmdSendFix "u1" "m9" "t9" true).1.messages =
      pushTrim stFix.messages (mkNewMessage stFix cmdSendFix "u1" "m9" "t9") ∧
    ((stFix.messages ++ [mkNewMessage stFix cmdSendFix "u1" "m9" "t9"]).length > 100 →
      pushTrim stFix.messages (mkNewMessage stFix cmdSendFix "u1" "m9" "t9") =
        (stFix.messages ++ [mkNewMessage stFix cmdSendFix "u1" "m9" "t9"]).drop
          ((stFix.messages ++ [mkNewMessage stFix cmdSendFix "u1" "m9" "t9"]).length - 50) ∧
      (pushTrim stFix.messages (mkNewMessage stFix cmdSendFix "u1" "m9" "t9")).length = 50) ∧
    ((stFix.messages ++ [mkNewMessage stFix cmdSendFix "u1" "m9" "t9"]).length ≤ 100 →
      pushTrim stFix.messages (mkNewMessage stFix cmdSendFix "u1" "m9" "t9") =
        stFix.messages ++ [mkNewMessage stFix cmdSendFix "u1" "m9" "t9"]) ∧
    (stFix.messages ++ [mkNewMessage stFix cmdSendFix "u1" "m9" "t9"]).length ≤ 101 ∧
    (handleSendMessage 2000 stFix cmdSendFix "u1" "m9" "t9" true).1.messages.length ≤ 100 ∧
    (∀ l : List Message, l.length = 101 →
      List.foldl pushTrim [] l = l.drop 51 ∧ (l.drop 51).length = 50) :=
  sendMessage_windowTrim 2000 stFix cmdSendFix "u1" "m9" "t9"
    (by decide) (by decide) (by decide)

/-- C10: a successful send emits the new_message broadcast with no
excluded user, and the broadcast delivery set contains every registered
open session — the sender included, since no exclusion applies. -/
theorem sendMessage_broadcastsToAll (maxLen : Nat) (st : RoomState) (cmd : WSMessage)
    (uid nid ts : String)
    (hne : trimContent cmd ≠ "") (hlen : (trimContent cmd).length ≤ maxLen) :
    Eff.broadcastEv (Event.newMessage (mkNewMessage st cmd uid nid ts)) none ∈
      (handleSendMessage maxLen st cmd uid nid ts true).2 ∧
    (∀ u s, (u, s) ∈ st.sessions → s.isOpen = true →
      (u, Event.newMessage (mkNewMessage st cmd uid nid ts)) ∈
        broadcastDeliver st.sessions (Event.newMessage (mkNewMessage st cmd uid nid ts)) none) := by
  have hval : ¬(trimContent cmd = "" ∨ (trimContent cmd).length > maxLen) := by
    push_neg
    exact ⟨hne, hlen⟩
  constructor
  · unfold handleSendMessage
    rw [if_neg hval]
    show Eff.broadcastEv (Event.newMessage (mkNewMessage st cmd uid nid ts)) none ∈
      [Eff.dbInsert (mkDbRow st cmd uid nid ts),
       Eff.storagePut (pushTrim st.messages (mkNewMessage st cmd uid nid ts)),
       Eff.broadcastEv (Event.newMessage (mkNewMessage st cmd uid nid ts)) none] ++
      (handleTypingStop
        { st with messages := pushTrim st.messages (mkNewMessage st cmd uid nid ts) } uid).2
    exact List.mem_append_left _ (by simp)
  · intro u s hmem hopen
    refine List.mem_filterMap.mpr ⟨(u, s), hmem, ?_⟩
    simp [hopen]

/-- C3: an author delete of a message present in the window splices the
entry out of the window (so no window entry with that id survives),
emits the soft-delete UPDATE, the snapshot write and a message_deleted
broadcast carrying only the id, and the modelled UPDATE marks the
durable row deleted without removing any row. -/
theorem deleteMessage_author_spec (st : RoomState) (cmd : WSMessage) (uid mid : String)
    (m : Message)
    (hmid : cmd.messageId = some mid) (hmidne : mid ≠ "")
    (hfind : st.messages[st.messages.findIdx (fun x => x.id == mid)]? = some m)
    (hauth : m.userId = uid)
    (hnodup : (st.messages.map (fun x => x.id)).Nodup) :
    (handleDeleteMessage st cmd uid true).1.messages =
      st.messages.eraseIdx (st.messages.findIdx (fun x => x.id == mid)) ∧
    (∀ x ∈ (handleDeleteMessage st cmd uid true).1.messages, x.id ≠ mid) ∧
    (handleDeleteMessage st cmd uid true).2 =
      [Eff.dbUpdateDelete mid uid,
       Eff.storagePut (st.messages.eraseIdx (st.messages.findIdx (fun x => x.id == mid))),
       Eff.broadcastEv (Event.messageDeleted mid) none] ∧
    (∀ db : List DBRow, (dbApplyDelete db mid uid).length = db.length) ∧
    (∀ (db : List DBRow) (r : DBRow), r ∈ db → r.id = mid → r.userId = uid →
      ({ r with deleted := true } : DBRow) ∈ dbApplyDelete db mid uid) := by
  have hres : handleDeleteMessage st cmd uid true =
      ({ st with messages :=
          st.messages.eraseIdx (st.messages.findIdx (fun x => x.id == mid)) },
       [Eff.dbUpdateDelete mid uid,
        Eff.storagePut (st.messages.eraseIdx (st.messages.findIdx (fun x => x.id == mid))),
        Eff.broadcastEv (Event.messageDeleted mid) none]) := by
    unfold handleDeleteMessage
    simp only [hmid, Option.getD_some]
    rw [if_neg hmidne]
    split
    · rename_i heq
      rw [hfind] at heq
      exact Option.noConfusion heq
    · rename_i m' heq
      rw [hfind] at heq
      injection heq with h
      subst h
      rw [if_neg (show ¬(m.userId ≠ uid) by simp [hauth])]
      simp
  have hid : m.id = mid := by
    have hp := getElem?_findIdx_pred (fun x => x.id == mid) st.messages m hfind
    simpa using hp
  refine ⟨by rw [hres], ?_, by rw [hres], ?_, ?_⟩
  · rw [hres]
    intro x hx
    have hne := eraseIdx_map_ne (fun y : Message => y.id) st.messages
      (st.messages.findIdx (fun x => x.id == mid)) m hnodup hfind x hx
    simpa [hid] using hne
  · intro db
    simp [dbApplyDelete]
  · intro db r hr hid2 huid
    unfold dbApplyDelete
    refine List.mem_map.mpr ⟨r, hr, ?_⟩
    show (if r.id = mid ∧ r.userId = uid then { r with deleted := true } else r) =
      { r with deleted := true }
    rw [if_pos ⟨hid2, huid⟩]

/-- C3 witness: u1 deletes the message m1 it authored in the concrete
room. -/
theorem deleteMessage_author_spec_witness :
    (handleDeleteMessage stFix cmdEditFix "u1" true).1.messages =
      stFix.messages.eraseIdx (stFix.messages.findIdx (fun x => x.id == "m1")) ∧
    (∀ x ∈ (handleDeleteMessage stFix cmdEditFix "u1" true).1.messages, x.id ≠ "m1") ∧
    (handleDeleteMessage stFix cmdEditFix "u1" true).2 =
      [Eff.dbUpdateDelete "m1" "u1",
       Eff.storagePut (stFix.messages.eraseIdx (stFix.messages.findIdx (fun x => x.id == "m1"))),
       Eff.broadcastEv (Event.messageDeleted "m1") none] ∧
    (∀ db : List DBRow, (dbApplyDelete db "m1" "u1").length = db.length) ∧
    (∀ (db : List DBRow) (r : DBRow), r ∈ db → r.id = "m1" → r.userId = "u1" →
      ({ r with deleted := true } : DBRow) ∈ dbApplyDelete db "m1" "u1") :=
  deleteMessage_author_spec stFix cmdEditFix "u1" "m1" mFix
    (by decide) (by decide) (by decide) (by decide) (by decide)

/-- C5: an edit_message with a well-formed id and content whose target
is absent from the window or not authored by the requester yields the
single combined not-found-or-unauthorized error to the sender and the
state — in particular the target message's content, edited flag and
editedAt — is left unchanged. -/
theorem editMessage_notFoundOrUnauthorized (st : RoomState) (cmd : WSMessage)
    (uid editedAt mid : String) (dbOk : Bool)
    (hmid : cmd.messageId = some mid) (hmidne : mid ≠ "") (hcontent : trimContent cmd ≠ "")
    (habs : ∀ m, st.messages[st.messages.findIdx (fun x => x.id == mid)]? = some m →
      m.userId ≠ uid) :
    handleEditMessage st cmd uid editedAt dbOk =
      (st, [Eff.sendToUser uid (Event.errorEv "Message not found or unauthorized")]) := by
  unfold handleEditMessage
  simp only [hmid, Option.getD_some]
  rw [if_neg (by push_neg; exact ⟨hmidne, hcontent⟩)]
  split
  · rfl
  · rename_i m heq
    rw [if_pos (habs m heq)]

/-- C5 witness: u2 attempts to edit u1's message m1 and gets the
combined error with no state change. -/
theorem editMessage_notFoundOrUnauthorized_witness :
    handleEditMessage stFix cmdEditFix "u2" "t9" true =
      (stFix, [Eff.sendToUser "u2" (Event.errorEv "Message not found or unauthorized")]) :=
  editMessage_notFoundOrUnauthorized stFix cmdEditFix "u2" "t9" "m1" true
    (by decide) (by decide) (by decide)
    (by
      intro m h
      have h2 : some mFix = some m := h
      injection h2 with h3
      subst h3
      decide)

/-- C4: every history fetch excludes rows marked deleted, restricts the
result to the queried channel, treats before as an exclusive upper
bound on the timestamp, returns at most limit rows, and orders the
returned messages ascending by timestamp. -/
theorem getMessages_spec (db : List DBRow) (members : List (String × ChannelMember))
    (cid : String) (limit : Nat) (before : Option String) :
    (∀ msg ∈ getMessages db members cid limit before, msg.deleted = false) ∧
    (∀ msg ∈ getMessages db members cid limit before, msg.channelId = cid) ∧
    (∀ b, before = some b → ∀ msg ∈ getMessages db members cid limit before,
      strLt msg.timestamp b = true) ∧
    (getMessages db members cid limit before).length ≤ limit ∧
    (getMessages db members cid limit before).Pairwise
      (fun x y => strLt y.timestamp x.timestamp = false) := by
  have hrow : ∀ r ∈ queryRows db cid limit before, rowMatches cid before r = true := by
    intro r hr
    unfold queryRows at hr
    rw [List.mem_reverse] at hr
    have hr2 := (List.take_sublist limit _).subset hr
    exact (List.mem_filter.mp (mem_sortBy tsGe r _ hr2)).2
  have hunpack : ∀ r ∈ queryRows db cid limit before,
      r.channelId = cid ∧ r.deleted = false ∧
      (∀ b, before = some b → strLt r.timestamp b = true) := by
    intro r hr
    have h := hrow r hr
    unfold rowMatches at h
    simp only [Bool.and_eq_true, beq_iff_eq, Bool.not_eq_true'] at h
    refine ⟨h.1.1, h.1.2, ?_⟩
    intro b hb
    rw [hb] at h
    exact h.2
  refine ⟨?_, ?_, ?_, ?_, ?_⟩
  · intro msg hmsg
    obtain ⟨r, hrmem, rfl⟩ := List.mem_map.mp hmsg
    show r.deleted = false
    exact (hunpack r hrmem).2.1
  · intro msg hmsg
    obtain ⟨r, hrmem, rfl⟩ := List.mem_map.mp hmsg
    show r.channelId = cid
    exact (hunpack r hrmem).1
  · intro b hb msg hmsg
    obtain ⟨r, hrmem, rfl⟩ := List.mem_map.mp hmsg
    show strLt r.timestamp b = true
    exact (hunpack r hrmem).2.2 b hb
  · unfold getMessages queryRows
    rw [List.length_map, List.length_reverse, List.length_take]
    exact min_le_left _ _
  · unfold getMessages queryRows
    refine List.pairwise_map.mpr ?_
    have hsorted : (sortBy tsGe (db.filter (rowMatches cid before))).Pairwise
        (fun x y => tsGe x y = true) :=
      pairwise_sortBy tsGe tsGe_total tsGe_trans _
    have htake : ((sortBy tsGe (db.filter (rowMatches cid before))).take limit).Pairwise
        (fun x y => tsGe x y = true) :=
      List.Pairwise.sublist (List.take_sublist limit _) hsorted
    have hrev := List.pairwise_reverse.mpr htake
    refine List.Pairwise.imp ?_ hrev
    intro a b hab
    show strLt b.timestamp a.timestamp = false
    simpa [tsGe, Bool.not_eq_true'] using hab

/-- C4 witness: the history theorem applied to a concrete four-row table
holding a deleted row and a second channel. -/
theorem getMessages_spec_witness :
    (∀ msg ∈ getMessages dbFix [] "c1" 2 (some "2024-01-04"), msg.deleted = false) ∧
    (∀ msg ∈ getMessages dbFix [] "c1" 2 (some "2024-01-04"), msg.channelId = "c1") ∧
    (∀ b, (some "2024-01-04" : Option String) = some b →
      ∀ msg ∈ getMessages dbFix [] "c1" 2 (some "2024-01-04"),
        strLt msg.timestamp b = true) ∧
    (getMessages dbFix [] "c1" 2 (some "2024-01-04")).length ≤ 2 ∧
    (getMessages dbFix [] "c1" 2 (some "2024-01-04")).Pairwise
      (fun x y => strLt y.timestamp x.timestamp = false) :=
  getMessages_spec dbFix [] "c1" 2 (some "2024-01-04")

/-- C6 counterexample: when the user has already reacted with the key,
reaction_add is a no-op but the following reaction_remove strips the
user, so the add/remove pair does not return the state (and in
particular the reaction map) to its prior value — refuting the
unconditional round-trip law at a concrete state. -/
theorem reactionRoundtrip_cex :
    (handleReactionRemove (handleReactionAdd stFix cmdReactFix "u1").1 cmdReactFix "u1").1 ≠
      stFix := by decide

/-- C6 amended: reaction_add immediately followed by reaction_remove for
the same (messageId, reaction, userId) returns the state — the reaction
map included — to its exact prior value, including the pruning case,
provided the user was not already in the key's user set (and the key's
set, if present, is non-empty, as in every reachable state). -/
theorem reactionRoundtrip_amended (st : RoomState) (cmd : WSMessage)
    (uid mid reaction : String) (m : Message)
    (hmid : cmd.messageId = some mid) (hre : cmd.reaction = some reaction)
    (hmidne : mid ≠ "") (hrene : reaction ≠ "")
    (hfind : st.messages[st.messages.findIdx (fun x => x.id == mid)]? = some m)
    (hnotin : ∀ l, aGet m.reactions reaction = some l → uid ∉ l ∧ l ≠ []) :
    (handleReactionRemove (handleReactionAdd st cmd uid).1 cmd uid).1 = st := by
  obtain ⟨R1, hadd, hrem⟩ := reactionsAdd_roundtrip m.reactions reaction uid hnotin
  have hfst := handleReactionAdd_found_some st cmd uid mid reaction m R1
    hmid hre hmidne hrene hfind hadd
  rw [hfst]
  set M1 := modifyIdx st.messages (st.messages.findIdx (fun x => x.id == mid)) (fun x => { x with reactions := R1 }) with hM1
  have hfind1 : M1[M1.findIdx (fun x => x.id == mid)]? = some { m with reactions := R1 } := by
    rw [hM1]
    rw [modifyIdx_findIdx (fun x => x.id == mid) (fun x : Message => { x with reactions := R1 }) (fun x => rfl)]
    rw [getElem?_modifyIdx]
    rw [hfind]
    rfl
  have hsnd := handleReactionRemove_found_some ({ st with messages := M1 }) cmd uid mid
    reaction ({ m with reactions := R1 }) m.reactions hmid hre hmidne hrene hfind1 hrem
  rw [show (handleReactionRemove ({ st with messages := M1 }, [Eff.storagePut M1, Eff.broadcastEv (Event.reactionAdded mid reaction uid) none]).1 cmd uid).1 = (handleReactionRemove ({ st with messages := M1 }) cmd uid).1 from rfl]
  rw [hsnd]
  show ({ st with messages := modifyIdx M1 (M1.findIdx (fun x => x.id == mid)) (fun x => { x with reactions := m.reactions }) } : RoomState) = st
  have hstate : modifyIdx M1 (M1.findIdx (fun x => x.id == mid)) (fun x => { x with reactions := m.reactions }) = st.messages := by
    rw [hM1]
    rw [modifyIdx_findIdx (fun x => x.id == mid) (fun x : Message => { x with reactions := R1 }) (fun x => rfl)]
    rw [modifyIdx_modifyIdx]
    exact modifyIdx_eq_self _ st.messages _ m hfind rfl
  rw [hstate]

/-- C6 amended witness: a u9 add/remove pair on the reaction-free
message m2 — the key is created and then pruned, restoring the state. -/
theorem reactionRoundtrip_amended_witness :
    (handleReactionRemove (handleReactionAdd stFix cmdReactFix2 "u9").1 cmdReactFix2 "u9").1 =
      stFix :=
  reactionRoundtrip_amended stFix cmdReactFix2 "u9" "m2" "heart" mFix2
    (by decide) (by decide) (by decide) (by decide) (by decide)
    (by intro l h; simp [mFix2, aGet] at h)

/-- C7: reaction_add is idempotent per (messageId, reactionKey, userId):
after one add the reacting-user set for the key contains the user
exactly once (given the reachable-state invariant that it contained the
user at most once before), and a second identical add leaves the state
unchanged and emits nothing. -/
theorem reactionAdd_idempotent (st : RoomState) (cmd : WSMessage)
    (uid mid reaction : String) (m : Message)
    (hmid : cmd.messageId = some mid) (hre : cmd.reaction = some reaction)
    (hmidne : mid ≠ "") (hrene : reaction ≠ "")
    (hfind : st.messages[st.messages.findIdx (fun x => x.id == mid)]? = some m)
    (hcount : ((aGet m.reactions reaction).getD []).count uid ≤ 1) :
    (∃ m1, (handleReactionAdd st cmd uid).1.messages[(handleReactionAdd st cmd uid).1.messages.findIdx (fun x => x.id == mid)]? = some m1 ∧
      ∃ l1, aGet m1.reactions reaction = some l1 ∧ l1.count uid = 1) ∧
    handleReactionAdd (handleReactionAdd st cmd uid).1 cmd uid =
      ((handleReactionAdd st cmd uid).1, []) := by
  obtain ⟨hsome, hnone⟩ := reactionsAdd_count m.reactions reaction uid hcount
  cases hR : reactionsAdd m.reactions reaction uid with
  | none =>
    have hfst := handleReactionAdd_found_none st cmd uid mid reaction m
      hmid hre hmidne hrene hfind hR
    rw [hfst]
    constructor
    · obtain ⟨l1, hget, hcnt⟩ := hnone hR
      exact ⟨m, hfind, l1, hget, hcnt⟩
    · exact hfst
  | some R1 =>
    have hfst := handleReactionAdd_found_some st cmd uid mid reaction m R1
      hmid hre hmidne hrene hfind hR
    rw [hfst]
    set M1 := modifyIdx st.messages (st.messages.findIdx (fun x => x.id == mid)) (fun x => { x with reactions := R1 }) with hM1
    have hfind1 : M1[M1.findIdx (fun x => x.id == mid)]? = some { m with reactions := R1 } := by
      rw [hM1]
      rw [modifyIdx_findIdx (fun x => x.id == mid) (fun x : Message => { x with reactions := R1 }) (fun x => rfl)]
      rw [getElem?_modifyIdx]
      rw [hfind]
      rfl
    constructor
    · obtain ⟨l1, hget, hcnt⟩ := hsome R1 hR
      exact ⟨{ m with reactions := R1 }, hfind1, l1, hget, hcnt⟩
    · exact handleReactionAdd_found_none ({ st with messages := M1 }) cmd uid mid reaction
        ({ m with reactions := R1 }) hmid hre hmidne hrene hfind1
        (reactionsAdd_again m.reactions reaction uid R1 hR)

/-- C7 witness: the idempotence theorem applied to u3 reacting with a
fresh key on message m2 of the concrete room. -/
theorem reactionAdd_idempotent_witness :
    (∃ m1, (handleReactionAdd stFix cmdReactFix2 "u3").1.messages[(handleReactionAdd stFix cmdReactFix2 "u3").1.messages.findIdx (fun x => x.id == "m2")]? = some m1 ∧
      ∃ l1, aGet m1.reactions "heart" = some l1 ∧ l1.count "u3" = 1) ∧
    handleReactionAdd (handleReactionAdd stFix cmdReactFix2 "u3").1 cmdReactFix2 "u3" =
      ((handleReactionAdd stFix cmdReactFix2 "u3").1, []) :=
  reactionAdd_idempotent stFix cmdReactFix2 "u3" "m2" "heart" mFix2
    (by decide) (by decide) (by decide) (by decide) (by decide) (by decide)

/-- C8 counterexample: a reaction_add or reaction_remove whose
messageId is not in the in-memory window sends no error event — the
handlers silently return with no state change and no effects, refuting
the claim that every command referencing an unknown messageId yields an
error event to the sender. -/
theorem reactionUnknownId_cex :
    ¬(∃ e ∈ (handleReactionAdd stFix cmdGhostFix "u1").2, e.isErrorTo "u1" = true) ∧
    ¬(∃ e ∈ (handleReactionRemove stFix cmdGhostFix "u1").2, e.isErrorTo "u1" = true) ∧
    handleReactionAdd stFix cmdGhostFix "u1" = (stFix, []) ∧
    handleReactionRemove stFix cmdGhostFix "u1" = (stFix, []) := by decide

/-- C8 amended: for a messageId absent from the in-memory window,
edit_message and delete_message send the combined
not-found-or-unauthorized error event to the sender, while
reaction_add and reaction_remove are silent no-ops (no event of any
kind, no state change); in every case the state is unchanged. -/
theorem unknownMessageId_behavior (st : RoomState) (cmd : WSMessage)
    (uid editedAt mid : String) (dbOk : Bool)
    (hmid : cmd.messageId = some mid) (hmidne : mid ≠ "")
    (hcontent : trimContent cmd ≠ "")
    (habs : st.messages[st.messages.findIdx (fun x => x.id == mid)]? = none) :
    handleReactionAdd st cmd uid = (st, []) ∧
    handleReactionRemove st cmd uid = (st, []) ∧
    handleEditMessage st cmd uid editedAt dbOk =
      (st, [Eff.sendToUser uid (Event.errorEv "Message not found or unauthorized")]) ∧
    handleDeleteMessage st cmd uid dbOk =
      (st, [Eff.sendToUser uid (Event.errorEv "Message not found or unauthorized")]) := by
  refine ⟨?_, ?_, ?_, ?_⟩
  · unfold handleReactionAdd
    simp only [hmid, Option.getD_some]
    by_cases hre : cmd.reaction.getD "" = ""
    · rw [if_pos (Or.inr hre)]
    · rw [if_neg (by push_neg; exact ⟨hmidne, hre⟩)]
      split
      · rfl
      · rename_i m heq
        rw [habs] at heq
        exact Option.noConfusion heq
  · unfold handleReactionRemove
    simp only [hmid, Option.getD_some]
    by_cases hre : cmd.reaction.getD "" = ""
    · rw [if_pos (Or.inr hre)]
    · rw [if_neg (by push_neg; exact ⟨hmidne, hre⟩)]
      split
      · rfl
      · rename_i m heq
        rw [habs] at heq
        exact Option.noConfusion heq
  · unfold handleEditMessage
    simp only [hmid, Option.getD_some]
    rw [if_neg (by push_neg; exact ⟨hmidne, hcontent⟩)]
    split
    · rfl
    · rename_i m heq
      rw [habs] at heq
      exact Option.noConfusion heq
  · unfold handleDeleteMessage
    simp only [hmid, Option.getD_some]
    rw [if_neg hmidne]
    split
    · rfl
    · rename_i m heq
      rw [habs] at heq
      exact Option.noConfusion heq

/-- C8 amended witness: the unknown-id behavior at a concrete command
addressing the absent id zzz. -/
theorem unknownMessageId_behavior_witness :
    handleReactionAdd stFix cmdGhostFix "u2" = (stFix, []) ∧
    handleReactionRemove stFix cmdGhostFix "u2" = (stFix, []) ∧
    handleEditMessage stFix cmdGhostFix "u2" "t9" true =
      (stFix, [Eff.sendToUser "u2" (Event.errorEv "Message not found or unauthorized")]) ∧
    handleDeleteMessage stFix cmdGhostFix "u2" true =
      (stFix, [Eff.sendToUser "u2" (Event.errorEv "Message not found or unauthorized")]) :=
  unknownMessageId_behavior stFix cmdGhostFix "u2" "t9" "zzz" true
    (by decide) (by decide) (by decide) (by decide)

/-- C10 witness: for the concrete room the new_message broadcast is
emitted with no exclusion and reaches the sender's own open session. -/
theorem sendMessage_broadcastsToAll_witness :
    (Eff.broadcastEv (Event.newMessage (mkNewMessage stFix cmdSendFix "u1" "m9" "t9")) none ∈
      (handleSendMessage 2000 stFix cmdSendFix "u1" "m9" "t9" true).2 ∧
    (∀ u s, (u, s) ∈ stFix.sessions → s.isOpen = true →
      (u, Event.newMessage (mkNewMessage stFix cmdSendFix "u1" "m9" "t9")) ∈
        broadcastDeliver stFix.sessions
          (Event.newMessage (mkNewMessage stFix cmdSendFix "u1" "m9" "t9")) none)) ∧
    ("u1", Event.newMessage (mkNewMessage stFix cmdSendFix "u1" "m9" "t9")) ∈
      broadcastDeliver stFix.sessions
        (Event.newMessage (mkNewMessage stFix cmdSendFix "u1" "m9" "t9")) none :=
  ⟨sendMessage_broadcastsToAll 2000 stFix cmdSendFix "u1" "m9" "t9" (by decide) (by decide),
   by decide⟩

end ClanChat
